import Mathlib

/-!
Verification development for the donut-bot crawler core.

The Python sources are shallowly embedded as executable Lean functions:

* `src/web-crawler/functions/url_utils.py` (`normalize_path`, `normalize_url`),
  together with the parts of CPython's `urllib.parse` that those functions call
  (`unquote`, `quote`, `urlparse`, `urlunparse`, `parse_qs`, `urlencode`);
* `src/donutbot/url_frontier.py` (`add_url`, `get_url`, `mark_completed`,
  `mark_failed`), with the Redis sets/ordered set made explicit state;
* `src/donutbot/bloom_filter.py`;
* `src/web-crawler/functions/rate_limiter.py`;
* `src/donutbot/robots_checker.py`, with the parts of CPython's
  `urllib.robotparser.RobotFileParser` that it calls;
* `src/web_crawler.py` (`_calculate_priority`, `_is_valid_url`, the link
  enqueue loop of `crawl_page`, the early-return gates of `crawl_page`, and
  the empty-and-idle shutdown test of `_report_metrics`).

Strings are processed as `List Char`.  Percent-decoding and -encoding are
modelled bytewise: every concrete input in this file is ASCII, where the model
agrees exactly with CPython (CPython additionally UTF-8-decodes multi-byte
escape runs, which no property here exercises).
-/

namespace Crawler

/-- ASCII lowercasing of one character, as Python `str.lower` acts on ASCII. -/
def lowerChar (c : Char) : Char :=
  if 'A' ≤ c ∧ c ≤ 'Z' then Char.ofNat (c.toNat + 32) else c

/-- ASCII lowercasing of a string, as Python `str.lower` acts on ASCII. -/
def lowerL (s : List Char) : List Char := s.map lowerChar

/-- Hexadecimal digit test used by percent-escape decoding. -/
def isHexDigit (c : Char) : Bool :=
  c.isDigit || (decide ('a' ≤ c) && decide (c ≤ 'f')) || (decide ('A' ≤ c) && decide (c ≤ 'F'))

/-- Numeric value of a hexadecimal digit. -/
def hexVal (c : Char) : ℕ :=
  if c.isDigit then c.toNat - 48
  else if 'a' ≤ c ∧ c ≤ 'f' then c.toNat - 87
  else c.toNat - 55

/-- Models `urllib.parse.unquote`: each valid `%XX` escape is decoded once in a
single left-to-right pass; invalid escapes are left untouched.  Decoding is
bytewise (ASCII-faithful). -/
def pyUnquote : List Char → List Char
  | [] => []
  | '%' :: h1 :: h2 :: rest =>
    if isHexDigit h1 && isHexDigit h2 then
      Char.ofNat (16 * hexVal h1 + hexVal h2) :: pyUnquote rest
    else
      '%' :: pyUnquote (h1 :: h2 :: rest)
  | c :: rest => c :: pyUnquote rest

/-- Upper-case hexadecimal digit, as produced by `urllib.parse.quote`. -/
def hexDigitUpper (n : ℕ) : Char :=
  if n < 10 then Char.ofNat (48 + n) else Char.ofNat (55 + n)

/-- Characters `urllib.parse.quote` never escapes (letters, digits, `_.-~`). -/
def isAlwaysSafe (c : Char) : Bool :=
  c.isAlpha || c.isDigit || decide (c ∈ ['_', '.', '-', '~'])

/-- Models `urllib.parse.quote(s, safe)`: characters outside the always-safe
set and the extra `safe` set are replaced by `%XX` with upper-case hex
(bytewise, ASCII-faithful). -/
def pyQuote (safe : List Char) : List Char → List Char
  | [] => []
  | c :: rest =>
    (if isAlwaysSafe c || decide (c ∈ safe) then [c]
     else ['%', hexDigitUpper (c.toNat / 16 % 16), hexDigitUpper (c.toNat % 16)])
    ++ pyQuote safe rest

/-- Python substring containment: `needle in haystack`.  The empty needle is
contained in everything, matching Python. -/
def isSublistL (needle : List Char) : List Char → Bool
  | [] => needle.isEmpty
  | c :: rest => needle.isPrefixOf (c :: rest) || isSublistL needle rest

/-- Splits at the first occurrence of `sep`, returning the parts before and
after it (`sep` removed); `none` when `sep` does not occur. -/
def splitAtFirst (sep : Char) : List Char → Option (List Char × List Char)
  | [] => none
  | c :: rest =>
    if c = sep then some ([], rest)
    else (splitAtFirst sep rest).map fun p => (c :: p.1, p.2)

/-- Characters allowed in a URL scheme by `urllib.parse` (`scheme_chars`). -/
def isSchemeChar (c : Char) : Bool :=
  c.isAlpha || c.isDigit || decide (c ∈ ['+', '-', '.'])

/-- Models the scheme-splitting step of `urllib.parse.urlsplit`: the text
before the first `:` is a scheme iff it is nonempty, starts with a letter, and
consists of scheme characters; the scheme is lowercased.  Otherwise the input
is returned unchanged with an empty scheme. -/
def splitScheme (u : List Char) : List Char × List Char :=
  match splitAtFirst ':' u with
  | none => ([], u)
  | some (before, after) =>
    if before ≠ [] ∧ before.head?.any Char.isAlpha ∧ before.all isSchemeChar then
      (lowerL before, after)
    else
      ([], u)

/-- Delimiters that terminate the network-location component. -/
def netlocDelim (c : Char) : Bool := decide (c ∈ ['/', '?', '#'])

/-- Models the netloc-splitting step of `urllib.parse.urlsplit`: after a
leading `//`, the netloc extends up to the next `/`, `?` or `#`. -/
def splitNetloc (u : List Char) : List Char × List Char :=
  match u with
  | '/' :: '/' :: rest =>
    (rest.takeWhile (fun c => !netlocDelim c), rest.dropWhile (fun c => !netlocDelim c))
  | _ => ([], u)

/-- Models the fragment split of `urlsplit`: text after the first `#`. -/
def splitFragmentPy (u : List Char) : List Char × List Char :=
  match splitAtFirst '#' u with
  | none => (u, [])
  | some p => p

/-- Models the query split of `urlsplit`: text after the first `?`. -/
def splitQueryPy (u : List Char) : List Char × List Char :=
  match splitAtFirst '?' u with
  | none => (u, [])
  | some p => p

/-- Result of `urllib.parse.urlparse`. -/
structure UrlParseResult where
  scheme : List Char
  netloc : List Char
  path : List Char
  params : List Char
  query : List Char
  fragment : List Char
deriving DecidableEq, Repr

/-- Splits at the last occurrence of `sep`. -/
def splitAtLast (sep : Char) (u : List Char) : Option (List Char × List Char) :=
  match splitAtFirst sep u.reverse with
  | none => none
  | some (a, b) => some (b.reverse, a.reverse)

/-- Models `urllib.parse._splitparams`, applied by `urlparse` when the path
contains `;`: the params are the text after the first `;` of the last path
segment (after the last `/` when the path has one). -/
def splitParamsPy (p : List Char) : List Char × List Char :=
  if '/' ∈ p then
    match splitAtLast '/' p with
    | some (beforeSlash, afterSlash) =>
      match splitAtFirst ';' afterSlash with
      | some (a, b) => (beforeSlash ++ '/' :: a, b)
      | none => (p, [])
    | none => (p, [])
  else
    match splitAtFirst ';' p with
    | some (a, b) => (a, b)
    | none => (p, [])

/-- Models `urllib.parse.urlsplit` (without params).  Returns `none` when the
netloc has unbalanced square brackets, where CPython raises `ValueError`. -/
def urlsplitE (u : List Char) :
    Option (List Char × List Char × List Char × List Char × List Char) :=
  let s := splitScheme u
  let n := splitNetloc s.2
  if ('[' ∈ n.1 ∧ ']' ∉ n.1) ∨ (']' ∈ n.1 ∧ '[' ∉ n.1) then none
  else
    let f := splitFragmentPy n.2
    let q := splitQueryPy f.1
    some (s.1, n.1, q.1, q.2, f.2)

/-- Models `urllib.parse.urlparse`: `urlsplit` plus the params split. -/
def urlparseE (u : List Char) : Option UrlParseResult :=
  (urlsplitE u).map fun r =>
    match r with
    | (scheme, netloc, rest, query, fragment) =>
      let pp := if ';' ∈ rest then splitParamsPy rest else (rest, [])
      ⟨scheme, netloc, pp.1, pp.2, query, fragment⟩

/-- Models `urllib.parse.urlunsplit`. -/
def urlunsplitL (scheme netloc path query fragment : List Char) : List Char :=
  let url :=
    if netloc ≠ [] ∨ path.take 2 = ['/', '/'] then
      ('/' :: '/' :: netloc) ++ (if path ≠ [] ∧ path.take 1 ≠ ['/'] then '/' :: path else path)
    else path
  let url := if scheme ≠ [] then scheme ++ ':' :: url else url
  let url := if query ≠ [] then url ++ '?' :: query else url
  if fragment ≠ [] then url ++ '#' :: fragment else url

/-- Models `urllib.parse.urlunparse`. -/
def urlunparseL (scheme netloc path params query fragment : List Char) : List Char :=
  urlunsplitL scheme netloc (if params ≠ [] then path ++ ';' :: params else path) query fragment

/-- Splits a character list on a separator, as Python `str.split(sep)`:
the empty string yields one empty part. -/
def splitOnChar (sep : Char) : List Char → List (List Char)
  | [] => [[]]
  | c :: rest =>
    let r := splitOnChar sep rest
    if c = sep then [] :: r
    else
      match r with
      | a :: rs => (c :: a) :: rs
      | [] => [[c]]

/-- Python `"/".join`. -/
def joinWith (sep : Char) (ls : List (List Char)) : List Char :=
  List.intercalate [sep] ls

/-- Python `str.lstrip('/')`. -/
def stripLeadingSlashes (s : List Char) : List Char := s.dropWhile (· = '/')

/-- Replaces every run of two or more slashes by a single slash, as the
substitution `MULTI_SLASH_REGEX.sub('/', path)` with pattern `//+` does. -/
def collapseSlashes : List Char → List Char
  | [] => []
  | c :: rest =>
    let res := collapseSlashes rest
    if c = '/' then (if res.take 1 = ['/'] then res else '/' :: res) else c :: res

/-- Embeds `normalize_path` from `src/web-crawler/functions/url_utils.py`:
dot-segment removal, `/` normalization and slash collapsing.  The source line
`if path.endswith('/') and len(path) > 1 and not path.endswith('/')` is a dead
branch (its condition is contradictory) and is therefore omitted. -/
def normalize_pathL (path0 : List Char) : List Char :=
  if path0 = [] ∨ path0 = ['/'] then ['/']
  else
    let path := if path0.take 1 ≠ ['/'] then '/' :: path0 else path0
    let segments := splitOnChar '/' path
    let normSegments := segments.foldl
      (fun acc s =>
        if s = ['.', '.'] then
          match acc.getLast? with
          | some (_ :: _) => acc.dropLast
          | _ => acc
        else if s = ['.'] then acc
        else acc ++ [s]) []
    if normSegments = [] ∨ normSegments = [[]] then ['/']
    else if (match normSegments with
             | s₀ :: s₁ :: rest => s₀ = [] && (s₁ :: rest).all (· = [])
             | _ => false) then ['/']
    else
      let path := joinWith '/' normSegments
      let path := if path.take 2 = ['/', '/'] then '/' :: stripLeadingSlashes path else path
      let path := if path.take 1 ≠ ['/'] then '/' :: path else path
      let path := collapseSlashes path
      if path = [] then ['/'] else path

/-- Python `'+'`-to-space replacement done by `parse_qsl` on names/values. -/
def plusToSpace (s : List Char) : List Char :=
  s.map fun c => if c = '+' then ' ' else c

/-- Models `urllib.parse.parse_qsl(qs, keep_blank_values=True)`: split on `&`,
drop empty pairs, split each pair at the first `=` (a missing `=` keeps the
pair with an empty value), then `+`→space and `unquote` on both sides. -/
def parseQsl (qs : List Char) : List (List Char × List Char) :=
  (splitOnChar '&' qs).foldr
    (fun pair acc =>
      if pair = [] then acc
      else
        let nv := match splitAtFirst '=' pair with
          | some p => p
          | none => (pair, [])
        (pyUnquote (plusToSpace nv.1), pyUnquote (plusToSpace nv.2)) :: acc) []

/-- Aggregation step of `parse_qs`: values grouped per key, first-occurrence
key order, value order preserved. -/
def insertQs (acc : List (List Char × List (List Char))) (k v : List Char) :
    List (List Char × List (List Char)) :=
  match acc with
  | [] => [(k, [v])]
  | (k0, vs) :: rest =>
    if k0 = k then (k0, vs ++ [v]) :: rest else (k0, vs) :: insertQs rest k v

/-- Models `urllib.parse.parse_qs(qs, keep_blank_values=True)`. -/
def parseQs (qs : List Char) : List (List Char × List (List Char)) :=
  (parseQsl qs).foldl (fun acc p => insertQs acc p.1 p.2) []

/-- Python string comparison (code-point lexicographic `≤`). -/
def lexLe : List Char → List Char → Bool
  | [], _ => true
  | _ :: _, [] => false
  | a :: as, b :: bs =>
    if a.toNat < b.toNat then true
    else if b.toNat < a.toNat then false
    else lexLe as bs

/-- Insertion sort by a boolean `≤`, as a model of Python `sorted`. -/
def insertSorted (le : List Char → List Char → Bool) (x : List Char) :
    List (List Char) → List (List Char)
  | [] => [x]
  | y :: ys => if le x y then x :: y :: ys else y :: insertSorted le x ys

/-- Sorts a list of strings, as Python `sorted` with default key. -/
def sortStrings (ls : List (List Char)) : List (List Char) :=
  ls.foldr (insertSorted lexLe) []

/-- Insertion step for sorting key/value groups by key. -/
def insertByKey (x : List Char × List (List Char)) :
    List (List Char × List (List Char)) → List (List Char × List (List Char))
  | [] => [x]
  | y :: ys => if lexLe x.1 y.1 then x :: y :: ys else y :: insertByKey x ys

/-- Models `sorted((k, sorted(v)) for k, v in params.items())` from
`normalize_url`: groups sorted by key, each value list sorted. -/
def sortParams (ps : List (List Char × List (List Char))) :
    List (List Char × List (List Char)) :=
  (ps.map fun p => (p.1, sortStrings p.2)).foldr insertByKey []

/-- Models `urllib.parse.urlencode(params, doseq=True, quote_via=quote(·, safe=''))`. -/
def urlencodePy (ps : List (List Char × List (List Char))) : List Char :=
  List.intercalate ['&']
    (ps.flatMap fun p => p.2.map fun v => pyQuote [] p.1 ++ '=' :: pyQuote [] v)

/-- Python `str.endswith` on character lists. -/
def endsWithL (s suffix : List Char) : Bool := suffix.isSuffixOf s

/-- Python `netloc.rsplit(':', 1)[0]`: drop everything from the last colon. -/
def dropAfterLastColon (s : List Char) : List Char :=
  match splitAtLast ':' s with
  | some (a, _) => a
  | none => s

/-- Embeds `normalize_url` from `src/web-crawler/functions/url_utils.py`.
The whole input is percent-decoded once and parsed; an empty scheme or netloc
returns the input unchanged (as does the `except` clause, reached when
`urlsplit` raises); otherwise the default port is elided, the path is
dot-normalized and re-quoted with `safe='/'`, the query is re-parsed, sorted
and re-encoded, and the fragment is dropped. -/
def normalize_urlL (url : List Char) : List Char :=
  match urlparseE (pyUnquote url) with
  | none => url
  | some p =>
    let scheme := lowerL p.scheme
    let netloc := lowerL p.netloc
    let path0 := if p.path = [] then ['/'] else p.path
    if scheme = [] ∨ netloc = [] then url
    else
      let netloc :=
        if (scheme = ("http").data ∧ endsWithL netloc ((":80").data))
            ∨ (scheme = ("https").data ∧ endsWithL netloc ((":443").data)) then
          dropAfterLastColon netloc
        else netloc
      let path1 := normalize_pathL path0
      let query :=
        if p.query ≠ [] then urlencodePy (sortParams (parseQs p.query)) else p.query
      let path2 := pyQuote ['/'] path1
      urlunparseL scheme netloc path2 p.params query []

/-- String-level wrapper of `normalize_urlL`. -/
def normalize_url (url : String) : String := ⟨normalize_urlL url.data⟩

/-! ## URL frontier (`src/donutbot/url_frontier.py`)

The four Redis keys become explicit state: the ordered set
`crawler:url_queue_prio` is a list of member/score pairs (`zadd` updates the
score of an existing member and appends a new one; `zpopmin` removes the entry
with the least score), and the three URL sets are `Finset String`.  Redis
round-trips are modelled as always succeeding except where a claim is
explicitly about a failing call.  `time.time()` becomes an explicit `now`
argument. -/

/-- The JSON record stored as a queue member by `add_url`. -/
structure URLRecord where
  url : String
  original_url : String
  priority : ℚ
  depth : ℕ
  added_at : ℚ
  domain : String
deriving DecidableEq, Repr

/-- One member of the `crawler:url_queue_prio` ordered set. -/
structure QEntry where
  record : URLRecord
  score : ℚ
deriving DecidableEq, Repr

/-- The frontier's external state: the ordered set and the three URL sets. -/
structure FrontierState where
  queue : List QEntry
  seen : Finset String
  processing : Finset String
  completed : Finset String
deriving DecidableEq

/-- Models Redis `ZADD key {member: score}`: an existing member gets the new
score, otherwise the member is added. -/
def zadd (q : List QEntry) (r : URLRecord) (s : ℚ) : List QEntry :=
  if q.any (fun e => e.record = r) then
    q.map fun e => if e.record = r then { e with score := s } else e
  else
    q ++ [⟨r, s⟩]

/-- Embeds `URLFrontier.add_url(url, priority, depth)`: canonicalize (an empty
string is falsy and rejected), refuse when the canonical URL is in
`completed`, elect via `SADD` on `seen`, build the record — whose `domain`
field calls `urlparse(norm_url)` inside the `try:` block, so a canonical URL
whose netloc has an unbalanced bracket raises `ValueError` there and the bare
`except` returns `False` with the `SADD` on `seen` already committed — then
`ZADD` the JSON record with score `-priority + added_at / 1_000_000_000`. -/
def addUrl (st : FrontierState) (url : String) (priority : ℚ) (depth : ℕ) (now : ℚ) :
    Bool × FrontierState :=
  let normUrl := normalize_url url
  if normUrl = ("") then (false, st)
  else if normUrl ∈ st.completed then (false, st)
  else if normUrl ∈ st.seen then (false, st)
  else
    match urlparseE normUrl.data with
    | none => (false, { st with seen := insert normUrl st.seen })
    | some p =>
      let data : URLRecord :=
        { url := normUrl, original_url := url, priority := priority,
          depth := depth, added_at := now, domain := ⟨p.netloc⟩ }
      let score := -priority + now / 1000000000
      (true, { st with seen := insert normUrl st.seen, queue := zadd st.queue data score })

/-- Embeds `add_url` when the `ZADD` call raises: the `SADD` on `seen` has
already committed, the bare `except` returns `False`, and the queue insert is
lost. -/
def addUrlZaddRaises (st : FrontierState) (url : String) : Bool × FrontierState :=
  let normUrl := normalize_url url
  if normUrl = ("") then (false, st)
  else if normUrl ∈ st.completed then (false, st)
  else if normUrl ∈ st.seen then (false, st)
  else (false, { st with seen := insert normUrl st.seen })

/-- Models Redis `ZPOPMIN`: selects the entry with the least score from a
nonempty ordered set and returns it with the remaining entries.  (Redis breaks
score ties by member lexicographic order; this model keeps the earlier entry,
which no property below depends on.) -/
def popMinL (e : QEntry) : List QEntry → QEntry × List QEntry
  | [] => (e, [])
  | f :: rest =>
    if f.score < e.score then
      let p := popMinL f rest
      (p.1, e :: p.2)
    else
      let p := popMinL e rest
      (p.1, f :: p.2)

/-- Embeds `URLFrontier.get_url`: `ZPOPMIN` the least-score member, try to
`SADD` its URL into `processing`; when the URL is already processing the entry
is discarded and the call recurses on the remaining queue.  The source
recursion terminates because each retry has removed one queue entry; the
`fuel` argument makes that measure explicit and is always instantiated with
the queue length. -/
def getUrlAux : ℕ → FrontierState → Option URLRecord × FrontierState
  | 0, st => (none, st)
  | fuel + 1, st =>
    match st.queue with
    | [] => (none, st)
    | e :: rest =>
      let p := popMinL e rest
      if p.1.record.url ∈ st.processing then
        getUrlAux fuel { st with queue := p.2 }
      else
        (some p.1.record,
         { st with queue := p.2, processing := insert p.1.record.url st.processing })

/-- `get_url` at its actual termination measure. -/
def getUrl (st : FrontierState) : Option URLRecord × FrontierState :=
  getUrlAux st.queue.length st

/-- Embeds `URLFrontier.mark_completed`: `SREM` from processing, `SADD` to
completed. -/
def markCompleted (st : FrontierState) (normUrl : String) : FrontierState :=
  { st with processing := st.processing.erase normUrl,
            completed := insert normUrl st.completed }

/-- Embeds `URLFrontier.mark_failed`: `SREM` from processing only. -/
def markFailed (st : FrontierState) (normUrl : String) : FrontierState :=
  { st with processing := st.processing.erase normUrl }

/-- Embeds `URLFrontier.is_url_completed`: membership of the re-normalized
URL in `completed`. -/
def isUrlCompleted (st : FrontierState) (url : String) : Bool :=
  normalize_url url ∈ st.completed

/-- The frontier with all four keys empty. -/
def emptyFrontier : FrontierState := ⟨[], ∅, ∅, ∅⟩

/-! ## Bloom filter (`src/donutbot/bloom_filter.py`)

The bit array is a `List Bool` of length `size`; `_hash` computes the MD5 of
`f"{item}{seed}"` as an integer, which the state passes around as an abstract
function `hash : String → ℕ → ℕ` — every property below holds for an
arbitrary hash, so MD5 itself needs no embedding.  `add` sets the
`hash item i % size` bit for each `i < hash_count`; `contains` tests the same
bits; `clear` resets the array. -/

/-- The in-process bloom filter state. -/
structure BloomFilter where
  size : ℕ
  hash_count : ℕ
  bit_array : List Bool
  items_added_count : ℕ
deriving DecidableEq, Repr

/-- Embeds `BloomFilter.add`: set the `hash_count` derived bits, bump the
item count. -/
def bloomAdd (hash : String → ℕ → ℕ) (bf : BloomFilter) (item : String) : BloomFilter :=
  { bf with
    bit_array :=
      (List.range bf.hash_count).foldl
        (fun bits i => bits.set (hash item i % bf.size) true) bf.bit_array,
    items_added_count := bf.items_added_count + 1 }

/-- Embeds `BloomFilter.contains`: all `hash_count` derived bits are set. -/
def bloomContains (hash : String → ℕ → ℕ) (bf : BloomFilter) (item : String) : Bool :=
  (List.range bf.hash_count).all fun i => bf.bit_array.getD (hash item i % bf.size) false

/-- Embeds `BloomFilter.clear`: reset every bit and the item count. -/
def bloomClear (bf : BloomFilter) : BloomFilter :=
  { bf with bit_array := List.replicate bf.bit_array.length false, items_added_count := 0 }

/-- Operations a client can perform on the bloom filter. -/
inductive BloomOp where
  | add (s : String)
  | clear
deriving DecidableEq

/-- Applies a sequence of bloom-filter operations. -/
def bloomApply (hash : String → ℕ → ℕ) (bf : BloomFilter) : List BloomOp → BloomFilter
  | [] => bf
  | BloomOp.add s :: ops => bloomApply hash (bloomAdd hash bf s) ops
  | BloomOp.clear :: ops => bloomApply hash (bloomClear bf) ops

/-! ## Rate limiter (`src/web-crawler/functions/rate_limiter.py`)

`next_access` is a `defaultdict(float)` read with `.get(domain, 0)`;
`config.rate_limits` maps domains to delays with `default_delay` as fallback.
`wait` is modelled with time explicit: the entry time `now` is the first
`time.time()` call; `await asyncio.sleep(next_time - now)` makes the return
time `max now next_time`, which is also the second `time.time()` call. -/

/-- Association-list lookup with a default, as Python `dict.get(k, d)`. -/
def lookupD (m : List (String × ℚ)) (k : String) (d : ℚ) : ℚ :=
  match m with
  | [] => d
  | p :: rest => if p.1 = k then p.2 else lookupD rest k d

/-- Association-list overwrite, as Python `m[k] = v`. -/
def updateAssoc (m : List (String × ℚ)) (k : String) (v : ℚ) : List (String × ℚ) :=
  if m.any (fun p => p.1 = k) then
    m.map fun p => if p.1 = k then (k, v) else p
  else
    m ++ [(k, v)]

/-- Rate-limiter state: the configured per-domain delays, the default delay,
and the per-domain next-allowed times. -/
structure RateLimiterState where
  rate_limits : List (String × ℚ)
  default_delay : ℚ
  next_access : List (String × ℚ)
deriving DecidableEq

/-- Embeds `RateLimiter.wait(domain)`: an empty domain returns at once;
otherwise the call returns no earlier than `next_access[domain]` and then
stores `return time + delay` where the delay is the domain's configured rate
limit or `default_delay`.  Returns the return time with the new state. -/
def rlWait (st : RateLimiterState) (domain : String) (now : ℚ) : ℚ × RateLimiterState :=
  if domain = ("") then (now, st)
  else
    let delay := lookupD st.rate_limits domain st.default_delay
    let nextTime := lookupD st.next_access domain 0
    let ret := max now nextTime
    (ret, { st with next_access := updateAssoc st.next_access domain (ret + delay) })

/-- Embeds `RateLimiter.update_custom_delay`: ignore an empty domain or a
non-positive delay, otherwise overwrite the configured rate limit. -/
def rlUpdateCustomDelay (st : RateLimiterState) (domain : String) (delay : ℚ) :
    RateLimiterState :=
  if domain = ("") ∨ delay ≤ 0 then st
  else { st with rate_limits := updateAssoc st.rate_limits domain delay }

/-! ## Robots checker (`src/donutbot/robots_checker.py`)

The checker delegates evaluation to CPython's
`urllib.robotparser.RobotFileParser`, whose relevant behavior is embedded
here: a freshly constructed parser has `last_checked = 0` and empty rule
entries; `parse(lines)` calls `modified()` (setting `last_checked`) and runs
a line-oriented state machine; `can_fetch` answers `False` whenever
`last_checked` is unset, and otherwise evaluates the first applicable group's
rules in file order.  The HTTP world is abstracted as a `FetchOutcome`
describing what the single `GET` of `robots.txt` produced, and `time.time()`
is an explicit `now`. -/

/-- Python whitespace for `str.strip` (ASCII subset). -/
def pyIsSpace (c : Char) : Bool :=
  decide (c ∈ [' ', '\t', '\n', '\r', '\x0b', '\x0c'])

/-- Python `str.strip()`. -/
def trimL (s : List Char) : List Char :=
  ((s.dropWhile pyIsSpace).reverse.dropWhile pyIsSpace).reverse

/-- Accumulating pass of `str.splitlines` over `\n`, `\r` and `\r\n`. -/
def splitLinesAux : List Char → List Char → List (List Char)
  | [], cur => [cur]
  | '\r' :: '\n' :: rest, cur => cur :: splitLinesAux rest []
  | '\r' :: rest, cur => cur :: splitLinesAux rest []
  | '\n' :: rest, cur => cur :: splitLinesAux rest []
  | c :: rest, cur => splitLinesAux rest (cur ++ [c])

/-- Models Python `str.splitlines()`: the empty string has no lines and a
trailing newline does not produce a final empty line. -/
def splitLinesPy (s : List Char) : List (List Char) :=
  if s = [] then []
  else
    let ls := splitLinesAux s []
    if ls.getLast? = some [] then ls.dropLast else ls

/-- One `Allow`/`Disallow` line of a robots.txt group
(`urllib.robotparser.RuleLine`). -/
structure RuleLine where
  path : List Char
  allowance : Bool
deriving DecidableEq, Repr

/-- Models `RuleLine.__init__`: an empty `Disallow` means allow everything;
the path is round-tripped through `urlparse`/`urlunparse` and quoted.  (When
`urlparse` would raise, the path is kept as given; robots paths never reach
that case.) -/
def mkRuleLine (path : List Char) (allowance : Bool) : RuleLine :=
  let allowance := if path = [] ∧ allowance = false then true else allowance
  let path :=
    match urlparseE path with
    | some p => urlunparseL p.scheme p.netloc p.path p.params p.query p.fragment
    | none => path
  ⟨pyQuote ['/'] path, allowance⟩

/-- One user-agent group of a robots.txt file (`urllib.robotparser.Entry`). -/
structure REntry where
  useragents : List (List Char)
  rulelines : List RuleLine
  delay : Option ℕ
deriving DecidableEq, Repr

/-- A fresh `Entry()`. -/
def emptyREntry : REntry := ⟨[], [], none⟩

/-- Models `Entry.applies_to`: the client agent is truncated at the first `/`
and lowercased; a group applies when it names `*` or any of its agents occurs
as a substring of the client agent. -/
def entryAppliesTo (e : REntry) (useragent : String) : Bool :=
  let ua := lowerL (match splitAtFirst '/' useragent.data with
    | some p => p.1
    | none => useragent.data)
  e.useragents.any fun agent =>
    agent = ['*'] || isSublistL (lowerL agent) ua

/-- Models `Entry.allowance`: the first rule whose path is `*` or a prefix of
the target decides; no matching rule allows. -/
def entryAllowance (e : REntry) (filename : List Char) : Bool :=
  match e.rulelines.find? (fun line => line.path = ['*'] || line.path.isPrefixOf filename) with
  | some line => line.allowance
  | none => true

/-- Models `urllib.robotparser.RobotFileParser` state: the rule groups, the
fallback `*` group, the two blanket flags, and whether `modified()` has ever
run (`last_checked`; only its truthiness matters). -/
structure RobotFileParser where
  entries : List REntry
  default_entry : Option REntry
  disallow_all : Bool
  allow_all : Bool
  last_checked : Bool
deriving DecidableEq, Repr

/-- A freshly constructed `RobotFileParser()`: nothing parsed, nothing
checked. -/
def freshRobotFileParser : RobotFileParser := ⟨[], none, false, false, false⟩

/-- Models `RobotFileParser._add_entry`: a group naming `*` becomes the
default entry (first one wins), other groups are appended. -/
def rfpAddEntry (p : RobotFileParser) (e : REntry) : RobotFileParser :=
  if ['*'] ∈ e.useragents then
    if p.default_entry = none then { p with default_entry := some e } else p
  else
    { p with entries := p.entries ++ [e] }

/-- Python `str.isdigit` on ASCII digits (nonempty, all digits). -/
def pyIsDigit (s : List Char) : Bool :=
  s ≠ [] && s.all Char.isDigit

/-- Python `int` on a digit string. -/
def natOfDigits (s : List Char) : ℕ :=
  s.foldl (fun acc c => 10 * acc + (c.toNat - 48)) 0

/-- Intermediate state of the `parse` line loop. -/
structure RfpParseState where
  state : ℕ
  entry : REntry
  parser : RobotFileParser
deriving Repr

/-- One iteration of the `RobotFileParser.parse` loop: blank-line group
flushing, `#` comment stripping, then the `user-agent` / `disallow` /
`allow` / `crawl-delay` key handling.  (Lines the source only records in
unused fields, such as `sitemap`, change nothing observable here.) -/
def rfpParseLine (st : RfpParseState) (line : List Char) : RfpParseState :=
  let st :=
    if line = [] then
      if st.state = 1 then { st with entry := emptyREntry, state := 0 }
      else if st.state = 2 then
        { state := 0, entry := emptyREntry, parser := rfpAddEntry st.parser st.entry }
      else st
    else st
  let line := match splitAtFirst '#' line with
    | some p => p.1
    | none => line
  let line := trimL line
  if line = [] then st
  else
    match splitAtFirst ':' line with
    | none => st
    | some (k, v) =>
      let key := lowerL (trimL k)
      let val := pyUnquote (trimL v)
      if key = ("user-agent").data then
        let st :=
          if st.state = 2 then
            { st with parser := rfpAddEntry st.parser st.entry, entry := emptyREntry }
          else st
        { st with entry := { st.entry with useragents := st.entry.useragents ++ [val] },
                  state := 1 }
      else if key = ("disallow").data then
        if st.state ≠ 0 then
          { st with entry := { st.entry with
                               rulelines := st.entry.rulelines ++ [mkRuleLine val false] },
                    state := 2 }
        else st
      else if key = ("allow").data then
        if st.state ≠ 0 then
          { st with entry := { st.entry with
                               rulelines := st.entry.rulelines ++ [mkRuleLine val true] },
                    state := 2 }
        else st
      else if key = ("crawl-delay").data then
        if st.state ≠ 0 then
          let entry :=
            if pyIsDigit (trimL val) then { st.entry with delay := some (natOfDigits val) }
            else st.entry
          { st with entry := entry, state := 2 }
        else st
      else st

/-- Models `RobotFileParser.parse(lines)`: `modified()` runs first (setting
`last_checked`), the loop processes each line, and a trailing rule group is
flushed. -/
def rfpParse (p : RobotFileParser) (lines : List (List Char)) : RobotFileParser :=
  let st0 : RfpParseState := ⟨0, emptyREntry, { p with last_checked := true }⟩
  let st := lines.foldl rfpParseLine st0
  if st.state = 2 then rfpAddEntry st.parser st.entry else st.parser

/-- Models `RobotFileParser.can_fetch(useragent, url)`: the blanket flags win,
an unparsed file (no `last_checked`) denies, then the path of the
percent-decoded URL is re-quoted and evaluated against the first applicable
group, defaulting to the `*` group, defaulting to allow.  (The `urlparse`
call cannot return `none` on any input reaching it through the checker; that
arm mirrors the checker's own `except` returning `False`.) -/
def rfpCanFetch (p : RobotFileParser) (useragent url : String) : Bool :=
  if p.disallow_all then false
  else if p.allow_all then true
  else if !p.last_checked then false
  else
    match urlparseE (pyUnquote url.data) with
    | none => false
    | some pu =>
      let target := pyQuote ['/'] (urlunparseL [] [] pu.path pu.params pu.query pu.fragment)
      let target := if target = [] then ['/'] else target
      match p.entries.find? (fun e => entryAppliesTo e useragent) with
      | some e => entryAllowance e target
      | none =>
        match p.default_entry with
        | some e => entryAllowance e target
        | none => true

/-- Models `RobotFileParser.crawl_delay`: `None` before any `modified()`,
otherwise the first applicable group's delay, falling back to the `*`
group. -/
def rfpCrawlDelay (p : RobotFileParser) (useragent : String) : Option ℕ :=
  if !p.last_checked then none
  else
    match p.entries.find? (fun e => entryAppliesTo e useragent) with
    | some e => e.delay
    | none =>
      match p.default_entry with
      | some e => e.delay
      | none => none

/-- What the single `GET` of an origin's `robots.txt` produced. -/
inductive FetchOutcome where
  | status (code : ℕ) (body : String)
  | netError
deriving DecidableEq

/-- Embeds `RobotsChecker._fetch_robots_txt`: a 200 whose body looks like an
HTML document counts as empty, otherwise its body is returned; redirects and
unexpected statuses yield `None`; 401/403/404/410 yield the empty string;
timeouts, client errors and any other exception yield `None`. -/
def fetchRobotsTxt : FetchOutcome → Option String
  | FetchOutcome.status 200 body =>
    if ("<!doctype html").data.isPrefixOf (lowerL (trimL body.data))
        ∨ ("<html").data.isPrefixOf (lowerL (trimL body.data)) then
      some ("")
    else some body
  | FetchOutcome.status c _ =>
    if c ∈ [301, 302, 307, 308] then none
    else if c ∈ [401, 403, 404, 410] then some ("")
    else none
  | FetchOutcome.netError => none

/-- The slice of the crawler configuration the robots checker reads. -/
structure RobotsConfig where
  respect_robots_txt : Bool
  robots_cache_time : ℚ
  user_agent : String
deriving DecidableEq

/-- One entry of `RobotsChecker.robots_cache`. -/
structure RobotsCacheEntry where
  parser : Option RobotFileParser
  timestamp : ℚ
  status : String
deriving DecidableEq, Repr

/-- The per-origin robots cache. -/
abbrev RobotsCache := List (String × RobotsCacheEntry)

/-- Association update for the robots cache. -/
def cacheStore (c : RobotsCache) (k : String) (v : RobotsCacheEntry) : RobotsCache :=
  if c.any (fun p => p.1 = k) then
    c.map fun p => if p.1 = k then (k, v) else p
  else
    c ++ [(k, v)]

/-- Embeds `RobotsChecker._get_robots_data`: answer from a cache entry still
inside `robots_cache_time`; otherwise fetch, cache `None` (status
`fetch_error`) on a failed fetch, skip `parse` entirely on a blank body,
parse otherwise, propagate a parsed `Crawl-delay` into the rate limiter, and
cache the parser with status `success`.  (`parse` is total here, so the
source's `parse_error` arm is unreachable in the model.) -/
def getRobotsData (cfg : RobotsConfig) (rl : RateLimiterState) (cache : RobotsCache)
    (now : ℚ) (outcome : FetchOutcome) (domainKey : String) :
    Option RobotFileParser × RobotsCache × RateLimiterState :=
  let fetchPath : Option RobotFileParser × RobotsCache × RateLimiterState :=
    match fetchRobotsTxt outcome with
    | none =>
      (none, cacheStore cache domainKey ⟨none, now, ("fetch_error")⟩, rl)
    | some content =>
      let parser :=
        if trimL content.data = [] then freshRobotFileParser
        else rfpParse freshRobotFileParser (splitLinesPy content.data)
      let rl :=
        match rfpCrawlDelay parser cfg.user_agent with
        | some d =>
          match urlparseE domainKey.data with
          | some pr =>
            if (⟨pr.netloc⟩ : String) ≠ ("") then
              rlUpdateCustomDelay rl ⟨pr.netloc⟩ (d : ℚ)
            else rl
          | none => rl
        | none => rl
      (some parser, cacheStore cache domainKey ⟨some parser, now, ("success")⟩, rl)
  match cache.lookup domainKey with
  | some e => if now - e.timestamp < cfg.robots_cache_time then (e.parser, cache, rl) else fetchPath
  | none => fetchPath

/-- Embeds `RobotsChecker.can_fetch(user_agent, url)`: `True` when robots are
not respected; `False` for a URL without scheme or netloc; otherwise the
origin key `scheme://netloc.lower()` selects the cached or fetched parser,
a missing parser denies, and the parser evaluates the URL.  `fetch` maps an
origin key to the outcome of fetching its `robots.txt`. -/
def robotsCanFetch (cfg : RobotsConfig) (rl : RateLimiterState) (cache : RobotsCache)
    (now : ℚ) (fetch : String → FetchOutcome) (user_agent url : String) :
    Bool × RobotsCache × RateLimiterState :=
  if !cfg.respect_robots_txt then (true, cache, rl)
  else
    match urlparseE url.data with
    | none => (false, cache, rl)
    | some p =>
      if p.scheme = [] ∨ p.netloc = [] then (false, cache, rl)
      else
        let domainKey : String := ⟨p.scheme ++ ':' :: '/' :: '/' :: lowerL p.netloc⟩
        let r := getRobotsData cfg rl cache now (fetch domainKey) domainKey
        match r.1 with
        | none => (false, r.2.1, r.2.2)
        | some parser => (rfpCanFetch parser user_agent url, r.2.1, r.2.2)

/-! ## Engine (`src/web_crawler.py`)

The pieces of `WebCrawler` the claims touch: `_calculate_priority`,
`_is_valid_url`, the link-enqueue loop at the end of `crawl_page`, the two
early-return gates at the top of `crawl_page`, and the empty-and-idle test of
`_report_metrics`.  RFC-3986 resolution (`urljoin`) is passed in as an
abstract function: no property below depends on its output values. -/

/-- The slice of `CrawlerConfig` the embedded engine pieces read. -/
structure EngineConfig where
  max_depth : ℕ
  priority_patterns : List String
  allowed_domains : List String
  excluded_extensions : List String
deriving DecidableEq

/-- Embeds `WebCrawler._calculate_priority(url, depth)`: base `1 − 0.1·depth`,
plus `0.5` when any configured priority pattern occurs case-insensitively in
the URL, clamped to `[0.01, 1.5]`. -/
def calculatePriority (cfg : EngineConfig) (url : String) (depth : ℕ) : ℚ :=
  let priority : ℚ := 1 - (depth : ℚ) * (1 / 10)
  let priority :=
    if cfg.priority_patterns.any
        (fun p => isSublistL (lowerL p.data) (lowerL url.data)) then
      priority + 1 / 2
    else priority
  max (1 / 100) (min (3 / 2) priority)

/-- The child priority exactly as claim C8 and §4.9 of the spec word it:
`clamp(1.0 − 0.1·(depth+1) + (0.5 if any priority_pattern ⊂ url else 0),
0.01, 1.5)` for a child of a page at depth `d`, with case-insensitive
substring pattern matching. -/
def claimedChildPriority (cfg : EngineConfig) (url : String) (d : ℕ) : ℚ :=
  let bonus : ℚ :=
    if cfg.priority_patterns.any
        (fun p => isSublistL (lowerL p.data) (lowerL url.data)) then
      1 / 2
    else 0
  max (1 / 100) (min (3 / 2) (1 - (1 / 10) * ((d : ℚ) + 1) + bonus))

/-- Embeds `WebCrawler._is_valid_url`: nonempty, http(s) scheme, nonempty
netloc, netloc contains some nonempty allowed domain as a case-insensitive
substring when the allow-list is nonempty, and the lowercased path does not
end in a nonempty excluded extension.  The `except` arm (parse failure)
answers `False`. -/
def isValidUrl (cfg : EngineConfig) (url : String) : Bool :=
  if url = ("") then false
  else
    match urlparseE url.data with
    | none => false
    | some p =>
      if !(p.scheme = ("http").data ∨ p.scheme = ("https").data) then false
      else if p.netloc = [] then false
      else if cfg.allowed_domains ≠ [] ∧
          ¬(cfg.allowed_domains.any fun ad =>
              ad ≠ ("") && isSublistL (lowerL ad.data) (lowerL p.netloc)) then false
      else if cfg.excluded_extensions.any
          (fun ext => ext ≠ ("") && endsWithL (lowerL p.path) ext.data) then false
      else true

/-- Embeds the link-enqueue loop at the end of `crawl_page`: when the page's
depth is below `max_depth`, each extracted link is resolved against the final
URL, normalized, and — when valid, not completed and not in the bloom filter
— passed to `frontier.add_url` with `_calculate_priority(link, depth+1)` and
depth `depth+1`.  Returns the `(url, priority, depth)` triples of the
`add_url` calls made. -/
def enqueueCalls (cfg : EngineConfig) (urljoin : String → String → String)
    (finalUrl : String) (links : List String) (frontier : FrontierState)
    (hash : String → ℕ → ℕ) (bloom : BloomFilter) (depth : ℕ) :
    List (String × ℚ × ℕ) :=
  if depth < cfg.max_depth then
    links.foldr
      (fun link acc =>
        if isValidUrl cfg (normalize_url (urljoin finalUrl link))
            ∧ ¬(isUrlCompleted frontier (normalize_url (urljoin finalUrl link)) = true)
            ∧ ¬(bloomContains hash bloom (normalize_url (urljoin finalUrl link)) = true) then
          (normalize_url (urljoin finalUrl link),
           calculatePriority cfg (normalize_url (urljoin finalUrl link)) (depth + 1),
           depth + 1) :: acc
        else acc) []
  else []

/-- The engine state the `crawl_page` gates read and write. -/
structure EngineState where
  frontier : FrontierState
  bloom : BloomFilter
  errors : ℕ
deriving DecidableEq

/-- Which early gate of `crawl_page` fired. -/
inductive GateOutcome where
  | completedHit
  | bloomHit
  | proceed
deriving DecidableEq, Repr

/-- Embeds the two early-return gates at the top of `crawl_page` for a popped
URL `u`: first `is_url_completed(current)` — whose body then evaluates the
nonexistent attribute `url_frontier.processing_urls_key`, so Python raises
`AttributeError`, caught by the function's final generic handler
(`errors += 1`, `mark_failed(current)`, `bloom.add(current)`); second the
bloom-filter check, which returns immediately with no state change at all. -/
def crawlPageEarly (hash : String → ℕ → ℕ) (st : EngineState) (u : String) :
    EngineState × GateOutcome :=
  let current := normalize_url u
  if isUrlCompleted st.frontier current then
    ({ frontier := markFailed st.frontier current,
       bloom := bloomAdd hash st.bloom current,
       errors := st.errors + 1 }, GateOutcome.completedHit)
  else if bloomContains hash st.bloom current then (st, GateOutcome.bloomHit)
  else (st, GateOutcome.proceed)

/-- Embeds the empty-and-idle test of `_report_metrics`
(`q_size == 0 and p_count == 0`, with `q_size = ZCARD queue` and
`p_count = SCARD processing`): only samples satisfying it can advance the
idle counter toward `idle_shutdown_threshold`. -/
def idleSample (st : FrontierState) : Bool :=
  st.queue.length = 0 && st.processing.card = 0

/-- The frontier operations worker iterations perform. -/
inductive FrontierOp where
  | opMarkCompleted (url : String)
  | opMarkFailed (url : String)
  | opAdd (url : String) (priority : ℚ) (depth : ℕ) (now : ℚ)
  | opPop
deriving DecidableEq

/-- Applies one frontier operation. -/
def applyFrontierOp (st : FrontierState) : FrontierOp → FrontierState
  | FrontierOp.opMarkCompleted v => markCompleted st v
  | FrontierOp.opMarkFailed v => markFailed st v
  | FrontierOp.opAdd v p d t => (addUrl st v p d t).2
  | FrontierOp.opPop => (getUrl st).2

/-- Applies a sequence of frontier operations. -/
def applyFrontierOps (st : FrontierState) (ops : List FrontierOp) : FrontierState :=
  ops.foldl applyFrontierOp st

/-- The URL an operation removes from `processing`, when it removes one:
`mark_completed` and `mark_failed` each `SREM` their argument; `add_url` and
`get_url` never remove from `processing`. -/
def opRemovesFromProcessing : FrontierOp → Option String
  | FrontierOp.opMarkCompleted v => some v
  | FrontierOp.opMarkFailed v => some v
  | _ => none

/-- One later `add_url` call, for replaying call sequences against a state. -/
structure AddCall where
  url : String
  priority : ℚ
  depth : ℕ
  now : ℚ

/-- Replays a sequence of `add_url` calls. -/
def applyAdds (st : FrontierState) : List AddCall → FrontierState
  | [] => st
  | c :: cs => applyAdds (addUrl st c.url c.priority c.depth c.now).2 cs

/-! ## Concrete fixtures for witnesses and counterexamples -/

/-- A queue record for `http://a.com/`. -/
def recA : URLRecord :=
  ⟨("http://a.com/"), ("http://a.com/"), 1, 0, 0, ("a.com")⟩

/-- A frontier whose only queued URL is already completed (reachable by
calling `mark_completed` on a queued URL, e.g. via the redirect path of
`crawl_page`). -/
def stCompletedQueued : FrontierState :=
  ⟨[⟨recA, -1⟩], {("http://a.com/")}, ∅, {("http://a.com/")}⟩

/-- A frontier with one queued URL and nothing processing. -/
def stFreshQueued : FrontierState :=
  ⟨[⟨recA, -1⟩], {("http://a.com/")}, ∅, ∅⟩

/-- A queue record for `http://b.com/`, scored after `recA`. -/
def recB : URLRecord :=
  ⟨("http://b.com/"), ("http://b.com/"), 1, 0, 5, ("b.com")⟩

/-- A frontier where the least-score queued URL is already processing, so a
pop must discard it and retry. -/
def stRacedQueue : FrontierState :=
  ⟨[⟨recA, -1⟩, ⟨recB, 0⟩], {("http://a.com/"), ("http://b.com/")},
   {("http://a.com/")}, ∅⟩

/-- Robots configuration with robots respected and a one-hour cache. -/
def robotsCfgA : RobotsConfig := ⟨true, 3600, ("TestBot")⟩

/-- Rate limiter with a 2-second default delay and no history. -/
def rlA : RateLimiterState := ⟨[], 2, []⟩

/-- Engine configuration used by the priority witnesses. -/
def cfgEngA : EngineConfig := ⟨3, [("news")], [], [(".pdf")]⟩

/-- A tiny deterministic stand-in hash for bloom-filter witnesses. -/
def hashA (s : String) (i : ℕ) : ℕ := s.length + 31 * i

/-- A small empty bloom filter (5 bits, 2 hashes). -/
def bloomA : BloomFilter := ⟨5, 2, List.replicate 5 false, 0⟩

/-- A frontier whose only member anywhere is `http://a.com/`, held in
`processing` (as after a pop). -/
def frontierProcA : FrontierState :=
  ⟨[], {("http://a.com/")}, {("http://a.com/")}, ∅⟩

/-- Engine state where the popped URL is in the bloom filter but not
completed. -/
def engA : EngineState :=
  ⟨frontierProcA, bloomAdd hashA bloomA ("http://a.com/"), 0⟩

/-! ## Helper lemmas -/

/-- `ZADD` of a member not yet in the ordered set appends it. -/
theorem zadd_of_fresh (q : List QEntry) (r : URLRecord) (s : ℚ)
    (h : ∀ e ∈ q, e.record ≠ r) : zadd q r s = q ++ [⟨r, s⟩] := by
  unfold zadd
  rw [if_neg]
  intro hc
  rw [List.any_eq_true] at hc
  obtain ⟨e, he, heq⟩ := hc
  exact h e he (by simpa using heq)

/-! ## Claim C1 -/

/-- Claim C1, amended: for every input url whose canonicalization is the
nonempty string — the source rejects a falsy (empty) canonicalization with
`False` even though the empty string is in neither set — and for every state
satisfying the frontier invariant `seen ⊇ queue`: when the canonical url is
parseable (CPython's `urlparse` does not raise on it), `add_url` returns
true iff the canonical url is in neither `completed` nor `seen`, on success
`seen` gains exactly the canonical url and the queue exactly one entry for
it, and on failure the state is untouched; when the canonical url is
unparseable (unbalanced-bracket netloc) and fresh, the `urlparse` inside the
`try:` block raises after the `SADD` on `seen` committed, so `add_url`
returns false with `seen` mutated and the queue unchanged. -/
theorem C1_add_url_amended (st : FrontierState) (url : String) (priority : ℚ)
    (depth : ℕ) (now : ℚ)
    (hnorm : normalize_url url ≠ (""))
    (hinv : ∀ e ∈ st.queue, e.record.url ∈ st.seen) :
    ((urlparseE (normalize_url url).data).isSome →
      ((addUrl st url priority depth now).1 = true ↔
        normalize_url url ∉ st.completed ∧ normalize_url url ∉ st.seen) ∧
      ((addUrl st url priority depth now).1 = true →
        (addUrl st url priority depth now).2.seen = insert (normalize_url url) st.seen ∧
        ∃ e, (addUrl st url priority depth now).2.queue = st.queue ++ [e] ∧
          e.record.url = normalize_url url) ∧
      ((addUrl st url priority depth now).1 = false →
        (addUrl st url priority depth now).2 = st)) ∧
    (urlparseE (normalize_url url).data = none →
      normalize_url url ∉ st.completed → normalize_url url ∉ st.seen →
      addUrl st url priority depth now =
        (false, { st with seen := insert (normalize_url url) st.seen })) := by
  by_cases h2 : normalize_url url ∈ st.completed
  · have hred : addUrl st url priority depth now = (false, st) := by
      simp only [addUrl]
      rw [if_neg hnorm, if_pos h2]
    rw [hred]
    exact ⟨fun _ => ⟨by simp [h2], by simp, by simp⟩, fun _ hc _ => absurd h2 hc⟩
  · by_cases h3 : normalize_url url ∈ st.seen
    · have hred : addUrl st url priority depth now = (false, st) := by
        simp only [addUrl]
        rw [if_neg hnorm, if_neg h2, if_pos h3]
      rw [hred]
      exact ⟨fun _ => ⟨by simp [h3], by simp, by simp⟩, fun _ _ hs => absurd h3 hs⟩
    · constructor
      · intro hps
        obtain ⟨p, hp⟩ := Option.isSome_iff_exists.mp hps
        have hred : addUrl st url priority depth now =
            (true, { st with seen := insert (normalize_url url) st.seen,
                             queue := zadd st.queue
                               ⟨normalize_url url, url, priority, depth, now, ⟨p.netloc⟩⟩
                               (-priority + now / 1000000000) }) := by
          simp only [addUrl]
          rw [if_neg hnorm, if_neg h2, if_neg h3, hp]
        rw [hred]
        refine ⟨by simp [h2, h3], fun _ => ⟨rfl, ?_⟩, by simp⟩
        rw [zadd_of_fresh]
        · exact ⟨_, rfl, rfl⟩
        · intro e he heq
          have hmem : e.record.url ∈ st.seen := hinv e he
          rw [heq] at hmem
          exact h3 hmem
      · intro hnone _ _
        simp only [addUrl]
        rw [if_neg hnorm, if_neg h2, if_neg h3, hnone]

/-- Claim C1, counterexample to the claim as stated: on the empty frontier
the input `""` canonicalizes to `""`, which is in neither `completed` nor
`seen`, yet `add_url` returns false. -/
theorem C1_add_url_counterexample :
    (addUrl emptyFrontier ("") (1/2) 0 0).1 = false ∧
    normalize_url ("") ∉ emptyFrontier.completed ∧
    normalize_url ("") ∉ emptyFrontier.seen := by decide

/-- Witness for C1 at concrete inputs: a parseable url is added, and an
unparseable canonical url (`http://[abc`) is refused while committed to
`seen`. -/
theorem C1_add_url_witness :
    (addUrl emptyFrontier ("http://a.com/") 1 0 0).1 = true ∧
    addUrl emptyFrontier ("http://[abc") 1 0 0 =
      (false, { emptyFrontier with seen := insert (normalize_url ("http://[abc"))
                                              emptyFrontier.seen }) :=
  ⟨(((C1_add_url_amended emptyFrontier ("http://a.com/") 1 0 0 (by decide)
      (by intro e he; simp [emptyFrontier] at he)).1 (by decide)).1).mpr (by decide),
   (C1_add_url_amended emptyFrontier ("http://[abc") 1 0 0 (by decide)
      (by intro e he; simp [emptyFrontier] at he)).2 (by decide) (by decide) (by decide)⟩

/-! ## Claim C4 -/

/-- Claim C4, amended: when the percent-decoded input has an empty scheme or
an empty host, `normalize_url` returns the input string unchanged — not null
— and no scheme whitelist is applied; consequently, among inputs the
un-decoded form of which CPython's `urlparse` accepts, `add_url` treats only
the empty string as invalid and admits the rest under the normal
completed/seen rules.  (An input whose un-decoded form `urlparse` rejects —
an unbalanced-bracket netloc such as `//[a%5D` — is instead refused by
`add_url`'s bare `except` after the `SADD` on `seen` committed; see C1.) -/
theorem C4_normalize_invalid_amended (url : String) (p : UrlParseResult)
    (priority : ℚ) (depth : ℕ) (now : ℚ)
    (hp : urlparseE (pyUnquote url.data) = some p)
    (hinvalid : p.scheme = [] ∨ p.netloc = []) :
    normalize_url url = url ∧
    (url ≠ ("") → (urlparseE url.data).isSome → ∀ st : FrontierState,
      ((addUrl st url priority depth now).1 = true ↔
        url ∉ st.completed ∧ url ∉ st.seen)) := by
  have hcond : lowerL p.scheme = [] ∨ lowerL p.netloc = [] := by
    rcases hinvalid with h | h
    · left; rw [h]; rfl
    · right; rw [h]; rfl
  have hnorm : normalize_url url = url := by
    simp only [normalize_url, normalize_urlL, hp]
    rw [if_pos hcond]
  refine ⟨hnorm, fun hne hps st => ?_⟩
  obtain ⟨q, hq⟩ := Option.isSome_iff_exists.mp hps
  simp only [addUrl, hnorm, hq]
  split_ifs with h1 h2 h3
  · exact absurd h1 hne
  · simp [h2]
  · simp [h3]
  · simp [h2, h3]

/-- Claim C4, counterexample to the claim as stated: `ftp://example.com/x`
has scheme `ftp ∉ {http, https}`, yet `normalize_url` returns it unchanged
(not null) and `add_url` on the empty frontier accepts it. -/
theorem C4_counterexample :
    normalize_url ("ftp://example.com/x") = ("ftp://example.com/x") ∧
    (addUrl emptyFrontier ("ftp://example.com/x") (1/2) 0 0).1 = true := by decide

/-- Witness for C4 at a concrete input with an empty scheme and host. -/
theorem C4_witness :
    normalize_url ("/path/only") = ("/path/only") ∧
    ((addUrl emptyFrontier ("/path/only") 1 0 0).1 = true ↔
      ("/path/only") ∉ emptyFrontier.completed ∧ ("/path/only") ∉ emptyFrontier.seen) := by
  have h := C4_normalize_invalid_amended ("/path/only")
    ⟨[], [], ("/path/only").data, [], [], []⟩ 1 0 0 (by decide) (Or.inl rfl)
  exact ⟨h.1, h.2 (by decide) (by decide) emptyFrontier⟩

/-! ## Claim C5 -/

/-- Claim C5 fails on the code: `normalize_url` percent-decodes the whole URL
but re-encodes only the path and query, never the netloc, so each application
strips one encoding level from a percent-escape in the authority.  At
`http://h%2525x/` one application gives `http://h%25x/` and a second gives
`http://h%x/`, so canonicalization is not idempotent. -/
theorem C5_normalize_not_idempotent :
    normalize_url ("http://h%2525x/") = ("http://h%25x/") ∧
    normalize_url (normalize_url ("http://h%2525x/")) = ("http://h%x/") ∧
    normalize_url (normalize_url ("http://h%2525x/")) ≠
      normalize_url ("http://h%2525x/") := by decide

/-! ## Claim C2 -/

/-- `ZPOPMIN` keeps the number of remaining entries. -/
theorem popMinL_length (e : QEntry) (l : List QEntry) :
    ((popMinL e l).2).length = l.length := by
  induction l generalizing e with
  | nil => rfl
  | cons f rest ih =>
    by_cases h : f.score < e.score
    · simp [popMinL, h, ih]
    · simp [popMinL, h, ih]

/-- A successful `get_url` returns a URL that was not processing before the
call and is processing afterwards, at every fuel. -/
theorem getUrlAux_some_spec (fuel : ℕ) :
    ∀ (st : FrontierState) (r : URLRecord) (st' : FrontierState),
      getUrlAux fuel st = (some r, st') →
      r.url ∉ st.processing ∧ r.url ∈ st'.processing := by
  induction fuel with
  | zero =>
    intro st r st' h
    exact absurd h (by simp [getUrlAux])
  | succ n ih =>
    intro st r st' h
    unfold getUrlAux at h
    cases hq : st.queue with
    | nil => rw [hq] at h; exact absurd h (by simp)
    | cons e rest =>
      rw [hq] at h
      simp only at h
      by_cases hmem : (popMinL e rest).1.record.url ∈ st.processing
      · rw [if_pos hmem] at h
        exact ih { st with queue := (popMinL e rest).2 } r st' h
      · rw [if_neg hmem] at h
        simp only [Prod.mk.injEq, Option.some.injEq] at h
        obtain ⟨h1, h2⟩ := h
        subst h1
        refine ⟨hmem, ?_⟩
        rw [← h2]
        exact Finset.mem_insert_self _ _

/-- Claim C2, amended: `get_url` never returns a URL currently in the
`processing` set — when the least-score entry's URL is already held by
another worker that entry is discarded and the pop retries on the remaining
queue — but nothing guards against the `completed` set (see the
counterexample), so only the `processing` half of the claim holds. -/
theorem C2_pop_amended (st : FrontierState) :
    (∀ (r : URLRecord) (st' : FrontierState), getUrl st = (some r, st') →
      r.url ∉ st.processing ∧ r.url ∈ st'.processing) ∧
    (∀ (e : QEntry) (rest : List QEntry), st.queue = e :: rest →
      (popMinL e rest).1.record.url ∈ st.processing →
      getUrl st = getUrl { st with queue := (popMinL e rest).2 }) := by
  constructor
  · intro r st' h
    exact getUrlAux_some_spec st.queue.length st r st' h
  · intro e rest hq hmem
    unfold getUrl
    rw [hq]
    simp only [List.length_cons, getUrlAux, hq]
    rw [if_pos hmem]
    congr 1
    simp [popMinL_length]

/-- Claim C2, counterexample to the claim as stated: in a frontier whose
queued URL is also completed (reachable since `mark_completed` does not
remove queue entries), `get_url` returns that URL even though it is a member
of the completed set. -/
theorem C2_pop_counterexample :
    (getUrl stCompletedQueued).1 = some recA ∧
    recA.url ∈ stCompletedQueued.completed := by decide

/-- Witness for C2 at concrete frontiers: a clean pop, and a pop that must
discard a raced entry. -/
theorem C2_pop_witness :
    (recA.url ∉ stFreshQueued.processing ∧
      recA.url ∈ (getUrl stFreshQueued).2.processing) ∧
    getUrl stRacedQueue =
      getUrl { stRacedQueue with queue := (popMinL ⟨recA, -1⟩ [⟨recB, 0⟩]).2 } :=
  ⟨(C2_pop_amended stFreshQueued).1 recA (getUrl stFreshQueued).2 (by decide),
   (C2_pop_amended stRacedQueue).2 ⟨recA, -1⟩ [⟨recB, 0⟩] rfl (by decide)⟩

/-! ## Claim C3 -/

/-- A freshly constructed `RobotFileParser` on which `parse` never ran denies
every URL to every agent: CPython's `can_fetch` returns `False` while
`last_checked` is unset. -/
theorem rfpCanFetch_fresh (agent url : String) :
    rfpCanFetch freshRobotFileParser agent url = false := by
  simp [rfpCanFetch, freshRobotFileParser]

/-- After a 404 (blank-content) fetch, `_get_robots_data` caches and returns
the fresh, never-parsed parser. -/
theorem getRobotsData_blank (rl : RateLimiterState) (k : String) (code : ℕ)
    (hc : code ∈ [401, 403, 404, 410]) :
    (getRobotsData robotsCfgA rl [] 0 (FetchOutcome.status code ("")) k).1 =
      some freshRobotFileParser := by
  fin_cases hc <;> rfl

/-- Claim C3 fails on the code: a robots.txt fetch answered 404 (or 200 with
an empty body) skips `parser.parse` entirely — the `if not content.strip():
pass` arm — and caches a `RobotFileParser` whose `last_checked` was never
set, so `can_fetch` afterwards returns `False` for every agent and every URL
of the origin, where the claim (and the spec) promise everything is allowed.
-/
theorem C3_robots_blank_denies (agent url : String) :
    (robotsCanFetch robotsCfgA rlA [] 0
        (fun _ => FetchOutcome.status 404 ("")) agent url).1 = false ∧
    (robotsCanFetch robotsCfgA rlA [] 0
        (fun _ => FetchOutcome.status 200 ("")) agent url).1 = false := by
  have h404 : ∀ k, (getRobotsData robotsCfgA rlA [] 0
      (FetchOutcome.status 404 ("")) k).1 = some freshRobotFileParser := fun _ => rfl
  have h200 : ∀ k, (getRobotsData robotsCfgA rlA [] 0
      (FetchOutcome.status 200 ("")) k).1 = some freshRobotFileParser := fun _ => rfl
  constructor <;>
  · unfold robotsCanFetch
    simp only [robotsCfgA] at h404 h200 ⊢
    cases hp : urlparseE url.data with
    | none => simp
    | some p =>
      by_cases hs : p.scheme = [] ∨ p.netloc = []
      · simp [hs]
      · simp [hs, h404, h200, rfpCanFetch_fresh]

/-! ## Claim C6 -/

/-- Setting a bit inside the array makes that bit read back `true`. -/
theorem bitGet_set_self : ∀ (l : List Bool) (i : ℕ), i < l.length →
    (l.set i true).getD i false = true
  | [], i, h => absurd h (by simp)
  | _ :: _, 0, _ => rfl
  | b :: rest, i + 1, h => by
    have := bitGet_set_self rest i (by simpa using h)
    simpa using this

/-- Setting any bit to `true` never clears a bit that already reads `true`. -/
theorem bitGet_set_mono : ∀ (l : List Bool) (i j : ℕ),
    l.getD i false = true → (l.set j true).getD i false = true
  | [], _, _, h => h
  | _ :: _, 0, 0, _ => rfl
  | _ :: _, 0, _ + 1, h => h
  | _ :: rest, i + 1, 0, h => by simpa using h
  | _ :: rest, i + 1, j + 1, h => by
    have := bitGet_set_mono rest i j (by simpa using h)
    simpa using this

/-- A fold of bit-sets preserves bits that already read `true`. -/
theorem foldl_set_mono (f : ℕ → ℕ) : ∀ (idxs : List ℕ) (bits : List Bool) (i : ℕ),
    bits.getD i false = true →
    (idxs.foldl (fun b j => b.set (f j) true) bits).getD i false = true
  | [], _, _, h => h
  | j :: rest, bits, i, h =>
    foldl_set_mono f rest (bits.set (f j) true) i (bitGet_set_mono bits i (f j) h)

/-- A fold of bit-sets keeps the array length. -/
theorem foldl_set_length (f : ℕ → ℕ) : ∀ (idxs : List ℕ) (bits : List Bool),
    (idxs.foldl (fun b j => b.set (f j) true) bits).length = bits.length
  | [], _ => rfl
  | j :: rest, bits => by
    rw [List.foldl_cons, foldl_set_length f rest, List.length_set]

/-- After a fold of bit-sets over `idxs`, every in-range bit indexed through
`f` by a member of `idxs` reads `true`. -/
theorem foldl_set_hits (f : ℕ → ℕ) : ∀ (idxs : List ℕ) (bits : List Bool) (j : ℕ),
    j ∈ idxs → f j < bits.length →
    (idxs.foldl (fun b j' => b.set (f j') true) bits).getD (f j) false = true := by
  intro idxs
  induction idxs with
  | nil => intro bits j h _; simp at h
  | cons k rest ih =>
    intro bits j hmem hlt
    rw [List.foldl_cons]
    rcases List.mem_cons.mp hmem with h | h
    · subst h
      exact foldl_set_mono f rest _ _ (bitGet_set_self bits (f j) hlt)
    · exact ih _ j h (by rw [List.length_set]; exact hlt)

/-- Immediately after `add(u)`, `contains(u)` answers `true`, given the
constructor's invariants (bit array of length `size`, `size ≥ 1`). -/
theorem bloomContains_after_add (hash : String → ℕ → ℕ) (bf : BloomFilter)
    (u : String) (hlen : bf.bit_array.length = bf.size) (hpos : 0 < bf.size) :
    bloomContains hash (bloomAdd hash bf u) u = true := by
  simp only [bloomContains, bloomAdd, List.all_eq_true]
  intro i hi
  apply foldl_set_hits (fun j => hash u j % bf.size) _ _ _ hi
  rw [hlen]
  exact Nat.mod_lt _ hpos

/-- A later `add(s)` cannot make `contains(u)` flip from `true` to `false`. -/
theorem bloomContains_mono (hash : String → ℕ → ℕ) (bf : BloomFilter) (u s : String)
    (h : bloomContains hash bf u = true) :
    bloomContains hash (bloomAdd hash bf s) u = true := by
  simp only [bloomContains, bloomAdd, List.all_eq_true] at h ⊢
  intro i hi
  exact foldl_set_mono (fun j => hash s j % bf.size) _ _ _ (h i hi)

/-- `contains(u) = true` survives any clear-free operation sequence. -/
theorem bloomApply_preserves (hash : String → ℕ → ℕ) (u : String) :
    ∀ (ops : List BloomOp) (bf : BloomFilter), BloomOp.clear ∉ ops →
      bloomContains hash bf u = true →
      bloomContains hash (bloomApply hash bf ops) u = true := by
  intro ops
  induction ops with
  | nil => intro bf _ h; exact h
  | cons op rest ih =>
    intro bf hnc h
    cases op with
    | add s =>
      exact ih _ (fun hc => hnc (List.mem_cons_of_mem _ hc)) (bloomContains_mono hash bf u s h)
    | clear => exact absurd (List.mem_cons_self _ _) hnc

/-- Claim C6: `bloom.add(u)` followed by any sequence of operations that
contains no `clear` leaves `bloom.contains(u) = true` — the filter never
reports a false negative — for every hash function and every filter state
satisfying the constructor's invariants (array length equals `size`,
`size ≥ 1`). -/
theorem C6_bloom_no_false_negative (hash : String → ℕ → ℕ) (bf : BloomFilter)
    (u : String) (ops : List BloomOp)
    (hlen : bf.bit_array.length = bf.size) (hpos : 0 < bf.size)
    (hnoclear : BloomOp.clear ∉ ops) :
    bloomContains hash (bloomApply hash (bloomAdd hash bf u) ops) u = true :=
  bloomApply_preserves hash u ops _ hnoclear
    (bloomContains_after_add hash bf u hlen hpos)

/-- Witness for C6 on a concrete small filter, hash and operation list. -/
theorem C6_bloom_witness :
    bloomContains hashA
      (bloomApply hashA (bloomAdd hashA bloomA ("a")) [BloomOp.add ("b")]) ("a") = true :=
  C6_bloom_no_false_negative hashA bloomA ("a") [BloomOp.add ("b")]
    (by decide) (by decide) (by decide)

/-! ## Claim C7 -/

/-- Looking a key up right after overwriting it yields the new value. -/
theorem lookupD_updateAssoc_self : ∀ (m : List (String × ℚ)) (k : String) (v d : ℚ),
    lookupD (updateAssoc m k v) k d = v := by
  intro m k v d
  induction m with
  | nil => simp [updateAssoc, lookupD]
  | cons q rest ih =>
    simp only [updateAssoc, List.any_cons] at ih ⊢
    by_cases hq : q.1 = k
    · rw [if_pos (by simp [hq])]
      rw [List.map_cons, if_pos hq]
      simp [lookupD]
    · by_cases hrest : (rest.any fun p => decide (p.1 = k)) = true
      · rw [if_pos (by simp [hrest])]
        rw [List.map_cons, if_neg hq]
        simp only [lookupD, if_neg hq]
        rw [if_pos hrest] at ih
        exact ih
      · rw [if_neg (by simp [hq, hrest])]
        rw [List.cons_append]
        simp only [lookupD, if_neg hq]
        rw [if_neg hrest] at ih
        exact ih

/-- Claim C7, amended to nonempty domains (`wait` returns immediately and
stores nothing for the empty domain — see the counterexample): `wait(d)` does
not return before the stored `next_access[d]`, and on return it stores
`return time + effective delay`, the delay being the domain-specific rate
limit when configured and `default_delay` otherwise. -/
theorem C7_wait_amended (st : RateLimiterState) (domain : String) (now : ℚ)
    (hd : domain ≠ ("")) :
    lookupD st.next_access domain 0 ≤ (rlWait st domain now).1 ∧
    now ≤ (rlWait st domain now).1 ∧
    lookupD ((rlWait st domain now).2).next_access domain 0 =
      (rlWait st domain now).1 + lookupD st.rate_limits domain st.default_delay := by
  simp only [rlWait, if_neg hd]
  exact ⟨le_max_right _ _, le_max_left _ _, lookupD_updateAssoc_self _ _ _ _⟩

/-- Claim C7, counterexample to the claim as stated: for the empty domain the
source's `if not domain: return` fires, so `next_access` is never written. -/
theorem C7_wait_counterexample :
    (rlWait rlA ("") 5).2 = rlA ∧
    lookupD ((rlWait rlA ("") 5).2).next_access ("") 0 ≠
      (rlWait rlA ("") 5).1 + lookupD rlA.rate_limits ("") rlA.default_delay := by
  refine ⟨rfl, ?_⟩
  show (0 : ℚ) ≠ 5 + 2
  norm_num

/-- Witness for C7 at a concrete domain and time. -/
theorem C7_wait_witness :
    lookupD rlA.next_access ("d.com") 0 ≤ (rlWait rlA ("d.com") 5).1 ∧
    (5 : ℚ) ≤ (rlWait rlA ("d.com") 5).1 ∧
    lookupD ((rlWait rlA ("d.com") 5).2).next_access ("d.com") 0 =
      (rlWait rlA ("d.com") 5).1 + lookupD rlA.rate_limits ("d.com") rlA.default_delay :=
  C7_wait_amended rlA ("d.com") 5 (by decide)

/-! ## Claim C8 -/

/-- `_calculate_priority(url, d+1)` computes exactly the spec's child-priority
formula for a parent at depth `d`. -/
theorem calculatePriority_succ_eq_claim (cfg : EngineConfig) (url : String) (d : ℕ) :
    calculatePriority cfg url (d + 1) = claimedChildPriority cfg url d := by
  unfold calculatePriority claimedChildPriority
  split_ifs with h
  · push_cast
    ring_nf
  · push_cast
    ring_nf

/-- Claim C8: every `add_url` call made by the link-enqueue loop for a page
at depth `d < max_depth` passes exactly the claimed clamped priority
`clamp(1.0 − 0.1·(d+1) + (0.5 if some pattern ⊂ url else 0), 0.01, 1.5)` and
depth `d + 1`. -/
theorem C8_child_priority (cfg : EngineConfig) (urljoin : String → String → String)
    (finalUrl : String) (links : List String) (frontier : FrontierState)
    (hash : String → ℕ → ℕ) (bloom : BloomFilter) (d : ℕ)
    (hdepth : d < cfg.max_depth) :
    ∀ c ∈ enqueueCalls cfg urljoin finalUrl links frontier hash bloom d,
      c.2.1 = claimedChildPriority cfg c.1 d ∧ c.2.2 = d + 1 := by
  unfold enqueueCalls
  rw [if_pos hdepth]
  induction links with
  | nil => intro c hc; simp at hc
  | cons l rest ih =>
    intro c hc
    rw [List.foldr_cons] at hc
    split_ifs at hc with hcond
    · rcases List.mem_cons.mp hc with h | h
      · subst h
        exact ⟨calculatePriority_succ_eq_claim cfg _ d, rfl⟩
      · exact ih c h
    · exact ih c hc

/-- Witness for C8: the one link of a concrete page is enqueued with the
claimed priority (pattern bonus applied) and depth 2. -/
theorem C8_child_priority_witness :
    calculatePriority cfgEngA (normalize_url ("http://h/news/a")) 2 =
      claimedChildPriority cfgEngA (normalize_url ("http://h/news/a")) 1 ∧
    (2 : ℕ) = 1 + 1 :=
  C8_child_priority cfgEngA (fun _ l => l) ("http://h/") [("http://h/news/a")]
    emptyFrontier hashA bloomA 1 (by decide)
    ((normalize_url ("http://h/news/a")),
     calculatePriority cfgEngA (normalize_url ("http://h/news/a")) 2, 2)
    (List.Mem.head _)

/-! ## Claim C9 -/

/-- Every member of a `ZADD` result carries either the new record's URL or a
URL already in the queue (a score update never changes a member's record). -/
theorem zadd_mem_url (q : List QEntry) (r : URLRecord) (s : ℚ) :
    ∀ e ∈ zadd q r s, e.record.url = r.url ∨
      e.record.url ∈ q.map (fun e' => e'.record.url) := by
  intro e he
  unfold zadd at he
  split_ifs at he with hany
  · rw [List.mem_map] at he
    obtain ⟨e', he', heq⟩ := he
    right
    have : e.record = e'.record := by
      rw [← heq]
      by_cases h : e'.record = r
      · rw [if_pos h]
      · rw [if_neg h]
    rw [this]
    exact List.mem_map_of_mem _ he'
  · rw [List.mem_append] at he
    rcases he with h | h
    · right; exact List.mem_map_of_mem _ h
    · left
      simp only [List.mem_singleton] at h
      rw [h]

/-- `add_url` never removes from `seen`. -/
theorem addUrl_seen_mono (st : FrontierState) (v : String) (p : ℚ) (d : ℕ) (t : ℚ) :
    st.seen ⊆ (addUrl st v p d t).2.seen := by
  simp only [addUrl]
  split_ifs
  · exact Finset.Subset.refl _
  · exact Finset.Subset.refl _
  · exact Finset.Subset.refl _
  · cases urlparseE (normalize_url v).data with
    | none => exact Finset.subset_insert _ _
    | some pr => exact Finset.subset_insert _ _

/-- `add_url` of a URL whose canonical form is already seen returns false. -/
theorem addUrl_false_of_seen (st : FrontierState) (v : String) (p : ℚ) (d : ℕ) (t : ℚ)
    (h : normalize_url v ∈ st.seen) : (addUrl st v p d t).1 = false := by
  simp only [addUrl]
  split_ifs <;> rfl

/-- While a URL is in `seen` and absent from the queue, any `add_url` call
keeps it in `seen` and keeps the queue free of it. -/
theorem addUrl_preserves_absent (st : FrontierState) (v : String) (p : ℚ) (d : ℕ)
    (t : ℚ) (norm : String) (hseen : norm ∈ st.seen)
    (hq : ∀ e ∈ st.queue, e.record.url ≠ norm) :
    norm ∈ (addUrl st v p d t).2.seen ∧
    ∀ e ∈ (addUrl st v p d t).2.queue, e.record.url ≠ norm := by
  have hmono := addUrl_seen_mono st v p d t
  refine ⟨hmono hseen, ?_⟩
  simp only [addUrl]
  split_ifs with h1 h2 h3
  · exact hq
  · exact hq
  · exact hq
  · cases urlparseE (normalize_url v).data with
    | none => exact hq
    | some pr =>
      intro e he
      have hne : normalize_url v ≠ norm := fun hh => h3 (hh ▸ hseen)
      rcases zadd_mem_url st.queue _ _ e he with h | h
      · rw [h]; exact hne
      · rw [List.mem_map] at h
        obtain ⟨e', he', heq⟩ := h
        rw [← heq]
        exact hq e' he'

/-- The two invariants of `addUrl_preserves_absent` survive any sequence of
later `add_url` calls. -/
theorem applyAdds_preserves_absent (norm : String) :
    ∀ (calls : List AddCall) (st : FrontierState), norm ∈ st.seen →
      (∀ e ∈ st.queue, e.record.url ≠ norm) →
      norm ∈ (applyAdds st calls).seen ∧
      ∀ e ∈ (applyAdds st calls).queue, e.record.url ≠ norm := by
  intro calls
  induction calls with
  | nil => intro st h1 h2; exact ⟨h1, h2⟩
  | cons c rest ih =>
    intro st h1 h2
    have step := addUrl_preserves_absent st c.url c.priority c.depth c.now norm h1 h2
    exact ih _ step.1 step.2

/-- Claim C9 (implicit): when the `ZADD` raises after the `SADD` on `seen`
committed, `add_url` returns false while `seen` permanently retains the
canonical URL and the queue is unchanged; every later `add_url` whose input
canonicalizes to the same URL — even after arbitrary further `add_url`
traffic — returns false, and no later `add_url` sequence ever puts an entry
for that URL into the queue. -/
theorem C9_partial_add_permanent (st : FrontierState) (url : String)
    (hnorm : normalize_url url ≠ (""))
    (hseen : normalize_url url ∉ st.seen)
    (hcomp : normalize_url url ∉ st.completed)
    (hqueue : ∀ e ∈ st.queue, e.record.url ≠ normalize_url url) :
    (addUrlZaddRaises st url).1 = false ∧
    normalize_url url ∈ (addUrlZaddRaises st url).2.seen ∧
    (addUrlZaddRaises st url).2.queue = st.queue ∧
    (∀ (calls : List AddCall) (v : String) (p : ℚ) (d : ℕ) (t : ℚ),
      normalize_url v = normalize_url url →
      (addUrl (applyAdds (addUrlZaddRaises st url).2 calls) v p d t).1 = false) ∧
    (∀ (calls : List AddCall),
      ∀ e ∈ (applyAdds (addUrlZaddRaises st url).2 calls).queue,
        e.record.url ≠ normalize_url url) := by
  have hst : (addUrlZaddRaises st url) =
      (false, { st with seen := insert (normalize_url url) st.seen }) := by
    simp only [addUrlZaddRaises]
    rw [if_neg hnorm, if_neg hcomp, if_neg hseen]
  rw [hst]
  have hbase1 : normalize_url url ∈
      ({ st with seen := insert (normalize_url url) st.seen } : FrontierState).seen :=
    Finset.mem_insert_self _ _
  have hbase2 : ∀ e ∈ ({ st with seen := insert (normalize_url url) st.seen } :
      FrontierState).queue, e.record.url ≠ normalize_url url := hqueue
  refine ⟨rfl, hbase1, rfl, ?_, ?_⟩
  · intro calls v p d t hv
    have hkept := applyAdds_preserves_absent (normalize_url url) calls _ hbase1 hbase2
    exact addUrl_false_of_seen _ v p d t (hv ▸ hkept.1)
  · intro calls
    exact (applyAdds_preserves_absent (normalize_url url) calls _ hbase1 hbase2).2

/-- Witness for C9: the partial add of `http://a.com/` on the empty frontier
returns false yet leaves the URL seen, and an immediate retry also fails. -/
theorem C9_partial_add_witness :
    (addUrlZaddRaises emptyFrontier ("http://a.com/")).1 = false ∧
    normalize_url ("http://a.com/") ∈
      (addUrlZaddRaises emptyFrontier ("http://a.com/")).2.seen ∧
    (addUrl (applyAdds (addUrlZaddRaises emptyFrontier ("http://a.com/")).2 [])
      ("http://a.com/") 1 0 7).1 = false := by
  obtain ⟨h1, h2, _, h4, _⟩ := C9_partial_add_permanent emptyFrontier ("http://a.com/")
    (by decide) (by decide) (by decide) (by intro e he; simp [emptyFrontier] at he)
  exact ⟨h1, h2, h4 [] ("http://a.com/") 1 0 7 rfl⟩

/-! ## Claim C10 -/

/-- `add_url` never touches the `processing` set. -/
theorem addUrl_processing_eq (st : FrontierState) (v : String) (p : ℚ) (d : ℕ) (t : ℚ) :
    (addUrl st v p d t).2.processing = st.processing := by
  simp only [addUrl]
  split_ifs <;> cases urlparseE (normalize_url v).data <;> rfl

/-- `get_url` only ever inserts into `processing`. -/
theorem getUrlAux_processing_mono (fuel : ℕ) :
    ∀ st : FrontierState, st.processing ⊆ (getUrlAux fuel st).2.processing := by
  induction fuel with
  | zero => intro st; exact Finset.Subset.refl _
  | succ n ih =>
    intro st
    unfold getUrlAux
    cases hq : st.queue with
    | nil => exact Finset.Subset.refl _
    | cons e rest =>
      simp only
      by_cases hmem : (popMinL e rest).1.record.url ∈ st.processing
      · rw [if_pos hmem]
        exact ih { st with queue := (popMinL e rest).2 }
      · rw [if_neg hmem]
        exact Finset.subset_insert _ _

/-- A frontier operation that does not target `u` keeps `u` in `processing`. -/
theorem applyFrontierOp_keeps (st : FrontierState) (u : String) (op : FrontierOp)
    (hu : u ∈ st.processing) (hop : opRemovesFromProcessing op ≠ some u) :
    u ∈ (applyFrontierOp st op).processing := by
  cases op with
  | opMarkCompleted v =>
    have hne : u ≠ v := by
      intro hh
      exact hop (by simp [opRemovesFromProcessing, hh])
    exact Finset.mem_erase.mpr ⟨hne, hu⟩
  | opMarkFailed v =>
    have hne : u ≠ v := by
      intro hh
      exact hop (by simp [opRemovesFromProcessing, hh])
    exact Finset.mem_erase.mpr ⟨hne, hu⟩
  | opAdd v p d t =>
    show u ∈ (addUrl st v p d t).2.processing
    rw [addUrl_processing_eq]
    exact hu
  | opPop =>
    exact getUrlAux_processing_mono st.queue.length st hu

/-- A sequence of frontier operations none of which targets `u` keeps `u` in
`processing`. -/
theorem applyFrontierOps_keeps (u : String) :
    ∀ (ops : List FrontierOp) (st : FrontierState), u ∈ st.processing →
      (∀ op ∈ ops, opRemovesFromProcessing op ≠ some u) →
      u ∈ (applyFrontierOps st ops).processing := by
  intro ops
  induction ops with
  | nil => intro st hu _; exact hu
  | cons op rest ih =>
    intro st hu hops
    exact ih _ (applyFrontierOp_keeps st u op hu (hops op (List.mem_cons_self _ _)))
      (fun o ho => hops o (List.mem_cons_of_mem _ ho))

/-- A nonempty `processing` set falsifies the empty-and-idle shutdown test. -/
theorem idleSample_false_of_processing (st : FrontierState) (u : String)
    (hu : u ∈ st.processing) : idleSample st = false := by
  have h1 : st.processing.card ≠ 0 := by
    intro h
    rw [Finset.card_eq_zero] at h
    rw [h] at hu
    exact Finset.not_mem_empty u hu
  simp only [idleSample, decide_eq_false h1, Bool.and_false]

/-- Claim C10 (implicit): when a popped URL is in the bloom filter but its
completed-check fails, `crawl_page` returns at the bloom gate with no state
change — neither `mark_completed` nor `mark_failed` runs — so the URL stays
in `processing`; it remains there under every later frontier operation that
does not explicitly remove that URL, and while it does, the metrics
reporter's empty-and-idle shutdown condition is false. -/
theorem C10_bloom_hit_sticks_processing (hash : String → ℕ → ℕ) (st : EngineState)
    (u : String) (ops : List FrontierOp)
    (hproc : u ∈ st.frontier.processing)
    (hcomp : isUrlCompleted st.frontier (normalize_url u) = false)
    (hbloom : bloomContains hash st.bloom (normalize_url u) = true)
    (hops : ∀ op ∈ ops, opRemovesFromProcessing op ≠ some u) :
    crawlPageEarly hash st u = (st, GateOutcome.bloomHit) ∧
    u ∈ (applyFrontierOps st.frontier ops).processing ∧
    idleSample (applyFrontierOps st.frontier ops) = false := by
  have hkeep := applyFrontierOps_keeps u ops st.frontier hproc hops
  refine ⟨?_, hkeep, idleSample_false_of_processing _ u hkeep⟩
  unfold crawlPageEarly
  rw [if_neg (by simp [hcomp]), if_pos hbloom]

/-- Witness for C10: a concrete engine state with `http://a.com/` popped and
bloom-known, and one later operation on a different URL. -/
theorem C10_bloom_hit_witness :
    crawlPageEarly hashA engA ("http://a.com/") = (engA, GateOutcome.bloomHit) ∧
    ("http://a.com/") ∈
      (applyFrontierOps engA.frontier [FrontierOp.opMarkCompleted ("http://b.com/")]).processing ∧
    idleSample
      (applyFrontierOps engA.frontier [FrontierOp.opMarkCompleted ("http://b.com/")]) = false :=
  C10_bloom_hit_sticks_processing hashA engA ("http://a.com/")
    [FrontierOp.opMarkCompleted ("http://b.com/")]
    (by decide) (by decide) (by decide) (by decide)

end Crawler
